import Mathlib

/-!
Verification of the MedSynEval evaluator against its specification.

The Django models and views of `evaluator/` are shallowly embedded:
rows are structure values, tables are lists inside a `DB` value, and each
view becomes a pure function from a `DB` and the request data to a result
and an updated `DB`.  Primary keys are natural numbers; Django's implicit
foreign-key joins become explicit lookups in the corresponding list.
Timestamps (`assigned_at`, `completed_at`, `timestamp`) and fields that no
claim touches (`image_path`, `assigned_by`, file paths, e-mail
notification) are omitted; float arithmetic in the progress/accuracy
percentages is modelled exactly over `ℚ`.
-/

namespace MedSynEval

/-- Row of `evaluator.models.ImageSet` (fields used by the claims:
primary key and `is_active`). -/
structure ImageSet where
  id : Nat
  is_active : Bool
deriving DecidableEq

/-- Row of `evaluator.models.Image`: primary key, owning set and the
ground-truth label `is_real`. -/
structure Image where
  id : Nat
  image_set : Nat
  is_real : Bool
deriving DecidableEq

/-- Row of `evaluator.models.Assignment`.  `assigned_images` holds the
ids of the many-to-many subset; the empty list is Django's empty
relation ("implies all images"). -/
structure Assignment where
  id : Nat
  clinician : Nat
  image_set : Nat
  is_completed : Bool
  assigned_images : List Nat
deriving DecidableEq

/-- Row of `evaluator.models.Evaluation`.  Only rows with a non-null
`image` foreign key are modelled (the legacy `image_path` rows are
invisible to every operation the claims mention, which all filter on
`image`). -/
structure Evaluation where
  clinician : Nat
  image : Nat
  is_real : Bool
  confidence : Int
deriving DecidableEq

/-- Row of `evaluator.models.Invitation`: the UUID token is abstracted
to a natural number. -/
structure Invitation where
  token : Nat
  is_used : Bool
deriving DecidableEq

/-- The relational store: one list per table. -/
structure DB where
  image_sets : List ImageSet
  images : List Image
  assignments : List Assignment
  evaluations : List Evaluation
deriving DecidableEq

/-- The reverse relation `image_set.images`: Django's
`self.image_set.images.all()` / `ImageSet.images` manager. -/
def imagesOfSet (db : DB) (setId : Nat) : List Image :=
  db.images.filter (fun im => im.image_set == setId)

/-- The join `image_set__is_active=True`: the set exists and is active. -/
def isSetActive (db : DB) (setId : Nat) : Bool :=
  db.image_sets.any (fun s => s.id == setId && s.is_active)

/-- The queryset `Assignment.objects.filter(clinician=request.user,
image_set__is_active=True, is_completed=False)` shared by
`submit_evaluation` and `get_next_image` (`api_views.py:57` and `:108`). -/
def activeAssignments (db : DB) (user : Nat) : List Assignment :=
  db.assignments.filter
    (fun a => a.clinician == user && isSetActive db a.image_set && !a.is_completed)

/-- The list `assigned_image_ids` built in `submit_evaluation`
(`api_views.py:63-67`): all image ids of the image sets of the user's
active assignments — note the `assigned_images` subset is not consulted. -/
def assignedImageIds (db : DB) (user : Nat) : List Nat :=
  ((activeAssignments db user).map
    (fun a => (imagesOfSet db a.image_set).map (fun im => im.id))).flatten

/-- Membership test for the join `image__image_set=s` on an evaluation's
image id. -/
def imageInSet (db : DB) (imgId setId : Nat) : Bool :=
  db.images.any (fun im => im.id == imgId && im.image_set == setId)

/-- `Assignment.get_progress` (`models.py:80-97`): pick totals and
evaluated counts from the subset when it is non-empty, else from the whole
image set, and return `evaluated / total * 100`, or `0` when `total` is
`0`.  The Python float arithmetic is modelled exactly over `ℚ`. -/
def get_progress (db : DB) (a : Assignment) : ℚ :=
  let tp : Nat × Nat :=
    if !a.assigned_images.isEmpty then
      (a.assigned_images.length,
       (db.evaluations.filter
         (fun e => e.clinician == a.clinician && a.assigned_images.contains e.image)).length)
    else
      ((imagesOfSet db a.image_set).length,
       (db.evaluations.filter
         (fun e => e.clinician == a.clinician && imageInSet db e.image a.image_set)).length)
  if tp.1 = 0 then 0 else ((tp.2 : ℚ) / (tp.1 : ℚ)) * 100

/-- Effective scope of an assignment as the specification defines it
(§4.2): the `assigned_images` subset when non-empty, otherwise the ids of
all images of the assignment's image set. -/
def effectiveScope (db : DB) (a : Assignment) : List Nat :=
  if !a.assigned_images.isEmpty then a.assigned_images
  else (imagesOfSet db a.image_set).map (fun im => im.id)

/-- Count of the assignment's clinician's evaluations whose image lies in
the effective scope (specification §4.2's "evaluated count"). -/
def evaluatedInScope (db : DB) (a : Assignment) : Nat :=
  (db.evaluations.filter
    (fun e => e.clinician == a.clinician && (effectiveScope db a).contains e.image)).length

/-- Outcome of the `submit_evaluation` endpoint, one constructor per
`JsonResponse` branch of `api_views.py:38-100`. -/
inductive SubmitResult where
  | missingFields
  | invalidImage
  | unauthorized
  | alreadyEvaluated
  | success
deriving DecidableEq

/-- HTTP status attached to each `JsonResponse` of `submit_evaluation`
(success responses use Django's default `200`). -/
def SubmitResult.status : SubmitResult → Nat
  | .missingFields => 400
  | .invalidImage => 404
  | .unauthorized => 403
  | .alreadyEvaluated => 400
  | .success => 200

/-- The `submit_evaluation` view (`api_views.py:38-100`).  Request fields
are `Option`s (absent JSON keys are `none`); the check
`not image_id or is_real is None or not confidence` keeps Python's
truthiness, under which `0` is falsy.  On success the evaluation is
inserted and then every active assignment whose recomputed progress reads
`100` is marked completed (`api_views.py:85-89`). -/
def submit_evaluation (db : DB) (user : Nat)
    (image_id : Option Nat) (is_real : Option Bool) (confidence : Option Int) :
    SubmitResult × DB :=
  match image_id, is_real, confidence with
  | some iid, some verdict, some conf =>
    if iid == 0 || conf == 0 then (.missingFields, db)
    else
      match db.images.find? (fun im => im.id == iid) with
      | none => (.invalidImage, db)
      | some image =>
        if !((assignedImageIds db user).contains image.id) then (.unauthorized, db)
        else if db.evaluations.any (fun e => e.clinician == user && e.image == image.id) then
          (.alreadyEvaluated, db)
        else
          let db1 : DB :=
            { db with evaluations := db.evaluations ++ [⟨user, image.id, verdict, conf⟩] }
          let actIds := (activeAssignments db user).map (fun a => a.id)
          let db2 : DB :=
            { db1 with assignments := db1.assignments.map (fun a =>
                if actIds.contains a.id && !a.is_completed then
                  (if get_progress db1 a = 100 then { a with is_completed := true } else a)
                else a) }
          (.success, db2)
  | _, _, _ => (.missingFields, db)

/-- Confidence values the `Evaluation.confidence` model field declares:
`choices=[(i, i) for i in range(1, 6)]` (`models.py:117`). -/
def confidenceChoices : List Int := [1, 2, 3, 4, 5]

/-- Whether the clinician has an evaluation for this image
(`Evaluation.objects.filter(clinician=..., image=...)`). -/
def hasEvaluated (db : DB) (user imgId : Nat) : Bool :=
  db.evaluations.any (fun e => e.clinician == user && e.image == imgId)

/-- The assignments `get_next_image` works over (`api_views.py:108-117`):
the active ones, narrowed to a single assignment when the
`assignment_id` query parameter is present. -/
def scopeAssignments (db : DB) (user : Nat) (aid : Option Nat) : List Assignment :=
  match aid with
  | some i => (activeAssignments db user).filter (fun a => a.id == i)
  | none => activeAssignments db user

/-- The `get_next_image` view (`api_views.py:104-190`), up to the random
draw: `none` models the two `completed: true` responses (no active
assignment, or no image left), `some pool` the set of remaining image ids
from which `order_by(?).first()` then draws one.  The scope is built from
the full image set of each assignment (`api_views.py:126-131`); without an
`assignment_id` the subtracted evaluations are all of the clinician's,
with one they are re-filtered to the scope (`api_views.py:143-149`). -/
def get_next_image_pool (db : DB) (user : Nat) (aid : Option Nat) : Option (List Nat) :=
  let asgs := scopeAssignments db user aid
  if asgs.isEmpty then none
  else
    let assigned := (asgs.map (fun a => (imagesOfSet db a.image_set).map (fun im => im.id))).flatten
    let evaluated : List Nat :=
      match aid with
      | some _ =>
        (db.evaluations.filter
          (fun e => e.clinician == user && assigned.contains e.image)).map (fun e => e.image)
      | none =>
        (db.evaluations.filter (fun e => e.clinician == user)).map (fun e => e.image)
    let remaining := assigned.filter (fun i => !(evaluated.contains i))
    if remaining.isEmpty then none else some remaining

/-- Image ids the implementation's next-image selector ranges over: the
whole image set of every in-scope assignment. -/
def fullScope (db : DB) (user : Nat) (aid : Option Nat) : List Nat :=
  ((scopeAssignments db user aid).map
    (fun a => (imagesOfSet db a.image_set).map (fun im => im.id))).flatten

/-- Scope of the next-image selector as the specification words it
(§4.4 via §4.2): the union of each in-scope assignment's effective scope,
honoring the `assigned_images` subset.  Stated only to compare with the
implementation's `fullScope`. -/
def specNextScope (db : DB) (user : Nat) (aid : Option Nat) : List Nat :=
  ((scopeAssignments db user aid).map (fun a => effectiveScope db a)).flatten

/-- The chunking expression of `assign_split_action` (`admin.py:410-411`):
`k, m = divmod(len(images), num)` and chunk `i` is the slice
`images[i*k + min(i, m) : (i+1)*k + min(i+1, m)]`. -/
def assign_chunks {α : Type} (images : List α) (num : Nat) : List (List α) :=
  let q := images.length / num
  let m := images.length % num
  (List.range num).map (fun i =>
    ((images.drop (i * q + min i m)).take ((i + 1) * q + min (i + 1) m - (i * q + min i m))))

/-- One iteration of the assignment loop of `assign_split_action`
(`admin.py:414-428`): `get_or_create` for the (clinician, image set)
pair, then overwrite `assigned_images` with the chunk and clear
`is_completed`.  The fresh primary key of a created row is a storage
detail; `db.assignments.length` stands in for it. -/
def upsertAssignment (db : DB) (c setId : Nat) (chunk : List Nat) : DB :=
  if db.assignments.any (fun a => a.clinician == c && a.image_set == setId) then
    { db with assignments := db.assignments.map (fun a =>
        if a.clinician == c && a.image_set == setId then
          { a with assigned_images := chunk, is_completed := false }
        else a) }
  else
    { db with assignments :=
        db.assignments ++ [⟨db.assignments.length, c, setId, false, chunk⟩] }

/-- The admin action `assign_split_action` (`admin.py:380-446`) for one
image set.  `shuffled` is the image-id list after `random.shuffle`
(the shuffle itself is the one source of randomness and is taken as an
input).  An empty clinician selection is rejected before the loop and an
image set without images is skipped (`admin.py:387-405`); otherwise each
clinician `i` receives chunk `i` (the loop guard `i < len(chunks)` kept
as in the source). -/
def assign_split_action (db : DB) (setId : Nat) (shuffled : List Nat)
    (clinicians : List Nat) : DB :=
  if clinicians.isEmpty then db
  else if shuffled.isEmpty then db
  else
    let chunks := assign_chunks shuffled clinicians.length
    (clinicians.enum).foldl
      (fun d p =>
        if p.1 < chunks.length then upsertAssignment d p.2 setId (chunks.getD p.1 []) else d)
      db

/-- The per-assignment evaluation rows of the `admin_panel` view
(`views.py:233-236`): the clinician's evaluations joined with their image,
kept when the image belongs to the assignment's image set. -/
def evalImagePairs (db : DB) (a : Assignment) : List (Evaluation × Image) :=
  db.evaluations.filterMap (fun e =>
    if e.clinician == a.clinician then
      match db.images.find? (fun im => im.id == e.image) with
      | some im => if im.image_set == a.image_set then some (e, im) else none
      | none => none
    else none)

/-- Evaluations of the assignment whose image is real. -/
def realPairs (db : DB) (a : Assignment) : List (Evaluation × Image) :=
  (evalImagePairs db a).filter (fun p => p.2.is_real)

/-- Evaluations of the assignment whose image is synthetic. -/
def synthPairs (db : DB) (a : Assignment) : List (Evaluation × Image) :=
  (evalImagePairs db a).filter (fun p => !p.2.is_real)

/-- Accuracy fields of one `assignments_data` entry of `admin_panel`. -/
structure AssignmentStats where
  total_evaluations : Nat
  accuracy : Option ℚ
  real_evaluated : Nat
  real_correct : Nat
  real_accuracy : Option ℚ
  synth_evaluated : Nat
  synth_correct : Nat
  synth_accuracy : Option ℚ
deriving DecidableEq

/-- Accuracy aggregation of the `admin_panel` view (`views.py:238-303`):
assignments with no evaluation get the `None` record of
`views.py:241-259`; otherwise the counting loop of `views.py:272-289`
and the percentage block of `views.py:291-294`, where `real_accuracy`
and `synth_accuracy` fall back to `None` on an empty denominator.
Only the fields claim C7 mentions are carried. -/
def admin_stats (db : DB) (a : Assignment) : AssignmentStats :=
  let pairs := evalImagePairs db a
  let total := pairs.length
  if total = 0 then
    ⟨0, none, 0, 0, none, 0, 0, none⟩
  else
    let real_evaluated := (pairs.filter (fun p => p.2.is_real)).length
    let real_correct := (pairs.filter (fun p => p.2.is_real && p.1.is_real)).length
    let synth_evaluated := (pairs.filter (fun p => !p.2.is_real)).length
    let synth_correct := (pairs.filter (fun p => !p.2.is_real && !p.1.is_real)).length
    let correct := real_correct + synth_correct
    { total_evaluations := total
      accuracy := some (((correct : ℚ) / (total : ℚ)) * 100)
      real_evaluated := real_evaluated
      real_correct := real_correct
      real_accuracy :=
        if real_evaluated > 0 then some (((real_correct : ℚ) / (real_evaluated : ℚ)) * 100)
        else none
      synth_evaluated := synth_evaluated
      synth_correct := synth_correct
      synth_accuracy :=
        if synth_evaluated > 0 then some (((synth_correct : ℚ) / (synth_evaluated : ℚ)) * 100)
        else none }

/-- State the registration view works on: the invitation table and the
user table (usernames abstracted to numbers). -/
structure RegState where
  invitations : List Invitation
  users : List Nat
deriving DecidableEq

/-- Outcome of a POST to the `register` view, one constructor per branch
of `views.py:27-52`. -/
inductive RegResult where
  | tokenRequired
  | invalidFormat
  | invalidToken
  | formInvalid
  | success
deriving DecidableEq

/-- POST branch of the `register` view (`views.py:27-56`).  The token
input distinguishes absent (`none`), syntactically malformed
(`some none`) and well-formed (`some (some t)`); `formValid` models
`form.is_valid()` and `newUser` the account `form.save()` would create.
Only when the form is valid is the user created and the invitation
marked used (`views.py:44-47`); every other branch re-renders the form
and leaves the state untouched. -/
def register (s : RegState) (tokenInput : Option (Option Nat)) (formValid : Bool)
    (newUser : Nat) : RegResult × RegState :=
  match tokenInput with
  | none => (.tokenRequired, s)
  | some none => (.invalidFormat, s)
  | some (some t) =>
    if !(s.invitations.any (fun inv => inv.token == t && !inv.is_used)) then
      (.invalidToken, s)
    else if formValid then
      (.success,
       ⟨s.invitations.map (fun inv =>
          if inv.token == t then { inv with is_used := true } else inv),
        s.users ++ [newUser]⟩)
    else (.formInvalid, s)

/-- Store with one active set of two images where clinician 1's
assignment restricts them to image 1 only. -/
def dbSubset : DB :=
  { image_sets := [⟨1, true⟩]
    images := [⟨1, 1, true⟩, ⟨2, 1, false⟩]
    assignments := [⟨1, 1, 1, false, [1]⟩]
    evaluations := [] }

/-- `dbSubset` after clinician 1 evaluated image 1 (their whole subset). -/
def dbSubsetDone : DB :=
  { dbSubset with evaluations := [⟨1, 1, true, 3⟩] }

/-- Store where clinician 1 already evaluated image 1 and the assignment
through which they saw it has been marked completed. -/
def dbCompleted : DB :=
  { image_sets := [⟨1, true⟩]
    images := [⟨1, 1, true⟩]
    assignments := [⟨1, 1, 1, true, []⟩]
    evaluations := [⟨1, 1, true, 3⟩] }

/-- Store with one active set of one image assigned (without subset) to
clinician 1, and no evaluation yet. -/
def dbFresh : DB :=
  { image_sets := [⟨1, true⟩]
    images := [⟨1, 1, true⟩]
    assignments := [⟨1, 1, 1, false, []⟩]
    evaluations := [] }

/-- Store with a completed assignment carrying a stale one-image subset,
about to be re-split by the admin action. -/
def dbReassign : DB :=
  { image_sets := [⟨1, true⟩]
    images := [⟨10, 1, true⟩, ⟨20, 1, false⟩]
    assignments := [⟨1, 1, 1, true, [5]⟩]
    evaluations := [] }

lemma imageInSet_eq_contains (db : DB) (imgId setId : Nat) :
    imageInSet db imgId setId
      = ((imagesOfSet db setId).map (fun im => im.id)).contains imgId := by
  rw [Bool.eq_iff_iff]
  simp only [imageInSet, imagesOfSet, List.any_eq_true, Bool.and_eq_true, beq_iff_eq,
    List.contains_iff_exists_mem_beq, List.mem_map, List.mem_filter]
  constructor
  · rintro ⟨im, him, h1, h2⟩
    exact ⟨im.id, ⟨im, ⟨him, h2⟩, rfl⟩, h1.symm⟩
  · rintro ⟨x, ⟨im, ⟨him, hset⟩, rfl⟩, hbeq⟩
    exact ⟨im, him, hbeq.symm, hset⟩
lemma progress_eq_scope (db : DB) (a : Assignment) :
    get_progress db a =
      if (effectiveScope db a).length = 0 then 0
      else ((evaluatedInScope db a : ℚ) / ((effectiveScope db a).length : ℚ)) * 100 := by
  by_cases h : a.assigned_images.isEmpty
  · have hfil :
        (fun e : Evaluation =>
            e.clinician == a.clinician && imageInSet db e.image a.image_set)
          = (fun e : Evaluation =>
              e.clinician == a.clinician && (effectiveScope db a).contains e.image) := by
      funext e
      rw [imageInSet_eq_contains]
      simp [effectiveScope, h]
    simp only [get_progress, effectiveScope, evaluatedInScope, h, hfil]
    simp [h]
  · simp only [get_progress, effectiveScope, evaluatedInScope, h]
    simp [h]

/-- Claim C5: for every assignment, `get_progress` equals
`evaluated / total × 100` computed over the effective scope — the
`assigned_images` subset when non-empty, otherwise all images of the
assignment's image set — and equals `0` when the scope's total is `0`
instead of faulting on a division by zero. -/
theorem C5_progress_over_effective_scope (db : DB) (a : Assignment) :
    get_progress db a =
      if (effectiveScope db a).length = 0 then 0
      else ((evaluatedInScope db a : ℚ) / ((effectiveScope db a).length : ℚ)) * 100 :=
  progress_eq_scope db a
/-- Claim C1 amended: the intake creates an evaluation exactly when the
request fields are present (non-falsy), the image exists, the image
belongs to the image set of one of the clinician's active
(set-active, not-yet-completed) assignments — the `assigned_images`
subset is NOT consulted — and the pair has no prior evaluation; in every
other case the evaluation table is left unchanged. -/
theorem C1_amended_authorization (db : DB) (user iid : Nat) (verdict : Bool) (conf : Int) :
    ((submit_evaluation db user (some iid) (some verdict) (some conf)).1
        = SubmitResult.success
      ↔ iid ≠ 0 ∧ conf ≠ 0
        ∧ (∃ im ∈ db.images, im.id = iid)
        ∧ (assignedImageIds db user).contains iid = true
        ∧ ¬∃ e ∈ db.evaluations, e.clinician = user ∧ e.image = iid)
    ∧ (submit_evaluation db user (some iid) (some verdict) (some conf)).2.evaluations
        = (if (submit_evaluation db user (some iid) (some verdict) (some conf)).1
              = SubmitResult.success
           then db.evaluations ++ [⟨user, iid, verdict, conf⟩]
           else db.evaluations) := by
  by_cases h0 : (iid == 0 || conf == 0) = true
  · have hval : submit_evaluation db user (some iid) (some verdict) (some conf)
        = (SubmitResult.missingFields, db) := by
      simp [submit_evaluation, h0]
    have hno : ¬(iid ≠ 0 ∧ conf ≠ 0
        ∧ (∃ im ∈ db.images, im.id = iid)
        ∧ (assignedImageIds db user).contains iid = true
        ∧ ¬∃ e ∈ db.evaluations, e.clinician = user ∧ e.image = iid) := by
      rcases Bool.or_eq_true_iff.mp h0 with h | h
      · exact fun hc => hc.1 (beq_iff_eq.mp h)
      · exact fun hc => hc.2.1 (beq_iff_eq.mp h)
    rw [hval]
    exact ⟨iff_of_false (by simp) hno, by simp⟩
  · have h0' : ¬(iid = 0 ∨ conf = 0) := by
      rw [Bool.or_eq_true_iff, not_or] at h0
      exact fun hc => hc.elim (fun h => h0.1 (beq_iff_eq.mpr h))
        (fun h => h0.2 (beq_iff_eq.mpr h))
    rcases hfind : db.images.find? (fun im => im.id == iid) with _ | image
    · have hval : submit_evaluation db user (some iid) (some verdict) (some conf)
          = (SubmitResult.invalidImage, db) := by
        simp [submit_evaluation, h0, hfind]
      have hnone : ¬∃ im ∈ db.images, im.id = iid := by
        rw [List.find?_eq_none] at hfind
        rintro ⟨im, him, hid⟩
        exact absurd (beq_iff_eq.mpr hid) (hfind im him)
      have hno : ¬(iid ≠ 0 ∧ conf ≠ 0
          ∧ (∃ im ∈ db.images, im.id = iid)
          ∧ (assignedImageIds db user).contains iid = true
          ∧ ¬∃ e ∈ db.evaluations, e.clinician = user ∧ e.image = iid) :=
        fun hc => hnone hc.2.2.1
      rw [hval]
      exact ⟨iff_of_false (by simp) hno, by simp⟩
    · have hp := List.find?_some hfind
      have hid : image.id = iid := by simpa using hp
      have hmem : image ∈ db.images := List.mem_of_find?_eq_some hfind
      by_cases hauth : (assignedImageIds db user).contains image.id = true
      · by_cases hdup :
            (db.evaluations.any (fun e => e.clinician == user && e.image == image.id)) = true
        · have hauthm : image.id ∈ assignedImageIds db user := by simpa using hauth
          have hdupm : ∃ e ∈ db.evaluations, e.clinician = user ∧ e.image = image.id := by
            simpa using hdup
          have hval : submit_evaluation db user (some iid) (some verdict) (some conf)
              = (SubmitResult.alreadyEvaluated, db) := by
            simp [submit_evaluation, h0, hfind, hauthm, hdupm]
          have hex : ∃ e ∈ db.evaluations, e.clinician = user ∧ e.image = iid := by
            rcases List.any_eq_true.mp hdup with ⟨e, he, hpe⟩
            rcases Bool.and_eq_true_iff.mp hpe with ⟨h1, h2⟩
            exact ⟨e, he, beq_iff_eq.mp h1, hid ▸ beq_iff_eq.mp h2⟩
          have hno : ¬(iid ≠ 0 ∧ conf ≠ 0
              ∧ (∃ im ∈ db.images, im.id = iid)
              ∧ (assignedImageIds db user).contains iid = true
              ∧ ¬∃ e ∈ db.evaluations, e.clinician = user ∧ e.image = iid) :=
            fun hc => hc.2.2.2.2 hex
          rw [hval]
          exact ⟨iff_of_false (by simp) hno, by simp⟩
        · have hauthm : image.id ∈ assignedImageIds db user := by simpa using hauth
          have hdupm : ¬∃ e ∈ db.evaluations, e.clinician = user ∧ e.image = image.id := by
            simpa using hdup
          have h1 : (submit_evaluation db user (some iid) (some verdict) (some conf)).1
              = SubmitResult.success := by
            simp [submit_evaluation, h0, hfind, hauthm, hdupm]
          have hauthm2 : iid ∈ assignedImageIds db user := hid ▸ hauthm
          have hdupm2 : ¬∃ e ∈ db.evaluations, e.clinician = user ∧ e.image = iid :=
            hid ▸ hdupm
          have h2 : (submit_evaluation db user (some iid) (some verdict) (some conf)).2.evaluations
              = db.evaluations ++ [⟨user, iid, verdict, conf⟩] := by
            simp [submit_evaluation, h0, hfind, hauthm, hdupm, hauthm2, hdupm2, hid]
          have hnodup : ¬∃ e ∈ db.evaluations, e.clinician = user ∧ e.image = iid := by
            rintro ⟨e, he, hc, hi⟩
            exact hdup (List.any_eq_true.mpr
              ⟨e, he, Bool.and_eq_true_iff.mpr
                ⟨beq_iff_eq.mpr hc, beq_iff_eq.mpr (hid ▸ hi)⟩⟩)
          rw [h1, h2]
          exact ⟨iff_of_true rfl
            ⟨fun h => h0' (Or.inl h), fun h => h0' (Or.inr h),
             ⟨image, hmem, hid⟩, hid ▸ hauth, hdupm2⟩, by simp⟩
      · have hcf : ¬image.id ∈ assignedImageIds db user := by simpa using hauth
        have hval : submit_evaluation db user (some iid) (some verdict) (some conf)
            = (SubmitResult.unauthorized, db) := by
          simp [submit_evaluation, h0, hfind, hcf]
        have hnauth : ¬(assignedImageIds db user).contains iid = true := hid ▸ hauth
        have hno : ¬(iid ≠ 0 ∧ conf ≠ 0
            ∧ (∃ im ∈ db.images, im.id = iid)
            ∧ (assignedImageIds db user).contains iid = true
            ∧ ¬∃ e ∈ db.evaluations, e.clinician = user ∧ e.image = iid) :=
          fun hc => hnauth hc.2.2.2.1
        rw [hval]
        exact ⟨iff_of_false (by simp) hno, by simp⟩
/-- Claim C3 is violated by the code: an intake request with
`confidence = 6` — outside the `choices` the `Evaluation.confidence`
model field itself declares — is accepted, answered with success
(HTTP 200), and the evaluation row is stored with confidence 6; no
validation error occurs. -/
theorem C3_confidence_six_accepted :
    (submit_evaluation dbFresh 1 (some 1) (some true) (some 6)).1 = SubmitResult.success
    ∧ ((submit_evaluation dbFresh 1 (some 1) (some true) (some 6)).1).status = 200
    ∧ (submit_evaluation dbFresh 1 (some 1) (some true) (some 6)).2.evaluations
        = [⟨1, 1, true, 6⟩]
    ∧ (6 : Int) ∉ confidenceChoices := by
  decide

/-- Claim C1, as stated, is false at this store: clinician 1's only
assignment carries the non-empty subset `[1]`, yet submitting image 2 —
inside the assignment's image set but outside the subset — is not
rejected as unauthorized: it succeeds and an evaluation row for the
pair is created. -/
theorem C1_counterexample :
    ((dbSubset.assignments = [⟨1, 1, 1, false, [1]⟩])
      ∧ ¬([1] : List Nat).contains 2
      ∧ (submit_evaluation dbSubset 1 (some 2) (some true) (some 3)).1
          ≠ SubmitResult.unauthorized
      ∧ (submit_evaluation dbSubset 1 (some 2) (some true) (some 3)).1
          = SubmitResult.success
      ∧ (submit_evaluation dbSubset 1 (some 2) (some true) (some 3)).2.evaluations
          = [⟨1, 2, true, 3⟩]) := by
  decide

/-- Claim C4, as stated, is false at this store: the pair
(clinician 1, image 1) already has an evaluation, but because the
assignment through which the image was reachable is marked completed,
the second submission is rejected as unauthorized with status 403, not
with the "already evaluated" condition and status 400. -/
theorem C4_counterexample :
    ((∃ e ∈ dbCompleted.evaluations, e.clinician = 1 ∧ e.image = 1)
      ∧ (submit_evaluation dbCompleted 1 (some 1) (some true) (some 3)).1
          = SubmitResult.unauthorized
      ∧ (submit_evaluation dbCompleted 1 (some 1) (some true) (some 3)).1
          ≠ SubmitResult.alreadyEvaluated
      ∧ ((submit_evaluation dbCompleted 1 (some 1) (some true) (some 3)).1).status = 403) := by
  refine ⟨⟨⟨1, 1, true, 3⟩, by decide, rfl, rfl⟩, by decide, by decide, by decide⟩

/-- Claim C4 amended: once an evaluation exists for (clinician, image),
a second submission for the pair never succeeds and leaves the whole
store — in particular the first evaluation's verdict and confidence —
unchanged; the failure is the "already evaluated" condition with status
400 whenever the request is well-formed, the image exists and it is
still reachable through an active assignment, and is a missing-field,
not-found or unauthorized error otherwise. -/
theorem C4_amended_duplicate_rejected (db : DB) (user iid : Nat) (verdict : Bool)
    (conf : Int) (e : Evaluation) (he : e ∈ db.evaluations)
    (hc : e.clinician = user) (hi : e.image = iid) :
    (submit_evaluation db user (some iid) (some verdict) (some conf)).1
        ≠ SubmitResult.success
    ∧ (submit_evaluation db user (some iid) (some verdict) (some conf)).2 = db
    ∧ (iid ≠ 0 → conf ≠ 0 → (∃ im ∈ db.images, im.id = iid) →
        (assignedImageIds db user).contains iid = true →
        (submit_evaluation db user (some iid) (some verdict) (some conf)).1
            = SubmitResult.alreadyEvaluated
        ∧ ((submit_evaluation db user (some iid) (some verdict) (some conf)).1).status
            = 400) := by
  have hex : ∃ x ∈ db.evaluations, x.clinician = user ∧ x.image = iid := ⟨e, he, hc, hi⟩
  by_cases h0 : (iid == 0 || conf == 0) = true
  · have hval : submit_evaluation db user (some iid) (some verdict) (some conf)
        = (SubmitResult.missingFields, db) := by
      simp [submit_evaluation, h0]
    rw [hval]
    refine ⟨by simp, rfl, ?_⟩
    intro h1 h2 _ _
    rcases Bool.or_eq_true_iff.mp h0 with h | h
    · exact absurd (beq_iff_eq.mp h) h1
    · exact absurd (beq_iff_eq.mp h) h2
  · rcases hfind : db.images.find? (fun im => im.id == iid) with _ | image
    · have hval : submit_evaluation db user (some iid) (some verdict) (some conf)
          = (SubmitResult.invalidImage, db) := by
        simp [submit_evaluation, h0, hfind]
      rw [hval]
      refine ⟨by simp, rfl, ?_⟩
      rintro _ _ ⟨im, him, hid⟩ _
      rw [List.find?_eq_none] at hfind
      exact absurd (beq_iff_eq.mpr hid) (hfind im him)
    · have hp := List.find?_some hfind
      have hid : image.id = iid := by simpa using hp
      by_cases hauth : (assignedImageIds db user).contains image.id = true
      · have hauthm : image.id ∈ assignedImageIds db user := by simpa using hauth
        have hdupm : ∃ x ∈ db.evaluations, x.clinician = user ∧ x.image = image.id :=
          hid ▸ hex
        have hval : submit_evaluation db user (some iid) (some verdict) (some conf)
            = (SubmitResult.alreadyEvaluated, db) := by
          simp [submit_evaluation, h0, hfind, hauthm, hdupm]
        rw [hval]
        exact ⟨by simp, rfl, fun _ _ _ _ => ⟨rfl, rfl⟩⟩
      · have hcf : ¬image.id ∈ assignedImageIds db user := by simpa using hauth
        have hval : submit_evaluation db user (some iid) (some verdict) (some conf)
            = (SubmitResult.unauthorized, db) := by
          simp [submit_evaluation, h0, hfind, hcf]
        rw [hval]
        refine ⟨by simp, rfl, ?_⟩
        intro _ _ _ hcontains
        have : iid ∈ assignedImageIds db user := by simpa using hcontains
        exact absurd (hid ▸ this) hcf

/-- Witness for the amended claim C4 at a concrete store: clinician 1 has
evaluated image 1 through a still-active assignment, and resubmitting the
pair is rejected as already evaluated with status 400 and no change. -/
theorem C4_amended_duplicate_rejected_witness :
    ((⟨1, 1, true, 3⟩ : Evaluation) ∈ dbSubsetDone.evaluations)
    ∧ ((submit_evaluation dbSubsetDone 1 (some 1) (some true) (some 3)).1
          ≠ SubmitResult.success
      ∧ (submit_evaluation dbSubsetDone 1 (some 1) (some true) (some 3)).2 = dbSubsetDone
      ∧ ((1 : Nat) ≠ 0 → (3 : Int) ≠ 0 →
          (∃ im ∈ dbSubsetDone.images, im.id = 1) →
          (assignedImageIds dbSubsetDone 1).contains 1 = true →
          (submit_evaluation dbSubsetDone 1 (some 1) (some true) (some 3)).1
              = SubmitResult.alreadyEvaluated
          ∧ ((submit_evaluation dbSubsetDone 1 (some 1) (some true) (some 3)).1).status
              = 400)) :=
  ⟨by decide,
   C4_amended_duplicate_rejected dbSubsetDone 1 1 true 3 ⟨1, 1, true, 3⟩
     (by decide) rfl rfl⟩

lemma contains_evalImages_eq_hasEvaluated (db : DB) (user i : Nat) :
    (((db.evaluations.filter (fun e => e.clinician == user)).map
        (fun e => e.image)).contains i) = hasEvaluated db user i := by
  rw [Bool.eq_iff_iff]
  simp only [hasEvaluated, List.any_eq_true, Bool.and_eq_true, beq_iff_eq,
    List.contains_iff_exists_mem_beq, List.mem_map, List.mem_filter]
  constructor
  · rintro ⟨x, ⟨e, ⟨he, hc⟩, rfl⟩, hb⟩
    exact ⟨e, he, hc, hb.symm⟩
  · rintro ⟨e, he, hc, hi⟩
    exact ⟨e.image, ⟨e, ⟨he, hc⟩, rfl⟩, hi.symm⟩

lemma contains_scopedEvalImages_eq_hasEvaluated (db : DB) (user : Nat)
    (assigned : List Nat) (i : Nat) (hi : i ∈ assigned) :
    (((db.evaluations.filter
        (fun e => e.clinician == user && assigned.contains e.image)).map
        (fun e => e.image)).contains i) = hasEvaluated db user i := by
  rw [Bool.eq_iff_iff]
  simp only [hasEvaluated, List.any_eq_true, Bool.and_eq_true, beq_iff_eq,
    List.contains_iff_exists_mem_beq, List.mem_map, List.mem_filter]
  constructor
  · rintro ⟨x, ⟨e, ⟨he, hc, _⟩, rfl⟩, hb⟩
    exact ⟨e, he, hc, hb.symm⟩
  · rintro ⟨e, he, hc, hi'⟩
    exact ⟨e.image, ⟨e, ⟨he, hc, ⟨i, hi, hi'⟩⟩, rfl⟩, hi'.symm⟩

/-- Claim C6 amended: the next-image selector's scope is the whole image
set of every active (optionally id-filtered) assignment — the
`assigned_images` subset is ignored — and it returns the pool of scope
images the clinician has not yet evaluated, or the "completed" signal
exactly when that pool is empty (in particular when there is no active
assignment at all). -/
theorem C6_amended_full_set_scope (db : DB) (user : Nat) (aid : Option Nat) :
    get_next_image_pool db user aid =
      (if ((fullScope db user aid).filter (fun i => !(hasEvaluated db user i))).isEmpty
       then none
       else some ((fullScope db user aid).filter (fun i => !(hasEvaluated db user i)))) := by
  cases aid with
  | none =>
    by_cases h : (activeAssignments db user).isEmpty
    · have hnil : activeAssignments db user = [] := List.isEmpty_iff.mp h
      simp [get_next_image_pool, fullScope, scopeAssignments, h, hnil]
    · have hfil :
          (((activeAssignments db user).map
              (fun a => (imagesOfSet db a.image_set).map (fun im => im.id))).flatten).filter
            (fun i => !(((db.evaluations.filter (fun e => e.clinician == user)).map
                (fun e => e.image)).contains i))
          = (fullScope db user none).filter (fun i => !(hasEvaluated db user i)) := by
        refine List.filter_congr (fun i _ => ?_)
        rw [contains_evalImages_eq_hasEvaluated]
      simp only [get_next_image_pool, scopeAssignments, h, Bool.false_eq_true, if_false,
        hfil]
  | some j =>
    by_cases h : ((activeAssignments db user).filter (fun a => a.id == j)).isEmpty
    · have hnil : (activeAssignments db user).filter (fun a => a.id == j) = [] :=
        List.isEmpty_iff.mp h
      simp [get_next_image_pool, fullScope, scopeAssignments, h, hnil]
    · have hfil :
          ((((activeAssignments db user).filter (fun a => a.id == j)).map
              (fun a => (imagesOfSet db a.image_set).map (fun im => im.id))).flatten).filter
            (fun i => !(((db.evaluations.filter (fun e => e.clinician == user &&
                  ((((activeAssignments db user).filter (fun a => a.id == j)).map
                    (fun a => (imagesOfSet db a.image_set).map (fun im => im.id))).flatten).contains
                    e.image)).map
                (fun e => e.image)).contains i))
          = (fullScope db user (some j)).filter (fun i => !(hasEvaluated db user i)) := by
        refine List.filter_congr (fun i hi => ?_)
        rw [contains_scopedEvalImages_eq_hasEvaluated db user _ i hi]
      simp only [get_next_image_pool, scopeAssignments, h, Bool.false_eq_true, if_false,
        hfil]
/-- Claim C6, as stated, is false at this store: clinician 1's only
assignment restricts them to the subset `[1]` and image 1 is already
evaluated, so the claimed effective-scope remainder is empty and the
selector should signal "completed"; instead the code serves image 2,
which lies outside the non-empty subset. -/
theorem C6_counterexample :
    ((dbSubsetDone.assignments = [⟨1, 1, 1, false, [1]⟩])
      ∧ (specNextScope dbSubsetDone 1 none).filter
          (fun i => !(hasEvaluated dbSubsetDone 1 i)) = []
      ∧ get_next_image_pool dbSubsetDone 1 none = some [2]
      ∧ ¬([1] : List Nat).contains 2) := by
  decide
lemma correct_split (l : List (Evaluation × Image)) :
    (l.filter (fun p => p.2.is_real && p.1.is_real)).length
      + (l.filter (fun p => !p.2.is_real && !p.1.is_real)).length
    = (l.filter (fun p => p.1.is_real == p.2.is_real)).length := by
  induction l with
  | nil => rfl
  | cons hd tl ih =>
    rcases h1 : hd.1.is_real <;> rcases h2 : hd.2.is_real <;>
      simp [List.filter_cons, h1, h2, ih] <;> omega

lemma filter_and_comm (l : List (Evaluation × Image)) (f g : (Evaluation × Image) → Bool) :
    l.filter (fun p => f p && g p) = l.filter (fun p => g p && f p) :=
  List.filter_congr (fun _ _ => Bool.and_comm _ _)

/-- Claim C7: in the admin reporting view, an assignment with zero
evaluations gets `accuracy = none` (undefined), not `0` (the `if` on the
empty pair list), and the real-only and synthetic-only percentages use
their own independent denominators — the real-image and synthetic-image
evaluation counts respectively — each falling back to `none` exactly when
its own subset is empty, without touching the other type's percentage. -/
theorem C7_admin_accuracy (db : DB) (a : Assignment) :
    ((admin_stats db a).accuracy
        = if (evalImagePairs db a).length = 0 then none
          else some (((((evalImagePairs db a).filter
                  (fun p => p.1.is_real == p.2.is_real)).length : ℚ)
                / ((evalImagePairs db a).length : ℚ)) * 100))
    ∧ ((admin_stats db a).real_accuracy
        = if (realPairs db a).length = 0 then none
          else some (((((realPairs db a).filter (fun p => p.1.is_real)).length : ℚ)
                / ((realPairs db a).length : ℚ)) * 100))
    ∧ ((admin_stats db a).synth_accuracy
        = if (synthPairs db a).length = 0 then none
          else some (((((synthPairs db a).filter (fun p => !p.1.is_real)).length : ℚ)
                / ((synthPairs db a).length : ℚ)) * 100)) := by
  have hreal : (realPairs db a).filter (fun p => p.1.is_real)
      = (evalImagePairs db a).filter (fun p => p.2.is_real && p.1.is_real) := by
    rw [realPairs, List.filter_filter]
    exact filter_and_comm _ _ _
  have hsynth : (synthPairs db a).filter (fun p => !p.1.is_real)
      = (evalImagePairs db a).filter (fun p => !p.2.is_real && !p.1.is_real) := by
    rw [synthPairs, List.filter_filter]
    exact filter_and_comm _ _ _
  have hrlen : (realPairs db a).length
      = ((evalImagePairs db a).filter (fun p => p.2.is_real)).length := rfl
  have hslen : (synthPairs db a).length
      = ((evalImagePairs db a).filter (fun p => !p.2.is_real)).length := rfl
  by_cases h : (evalImagePairs db a).length = 0
  · have hnil : evalImagePairs db a = [] := List.length_eq_zero.mp h
    simp [admin_stats, realPairs, synthPairs, h, hnil]
  · refine ⟨?_, ?_, ?_⟩
    · simp only [admin_stats, if_neg h]
      rw [← correct_split (evalImagePairs db a)]
    · simp only [admin_stats, if_neg h]
      rw [hreal, hrlen]
      rcases Nat.eq_zero_or_pos ((evalImagePairs db a).filter (fun p => p.2.is_real)).length
        with hz | hp
      · rw [if_neg (by omega), if_pos hz]
      · rw [if_pos hp, if_neg (by omega)]
    · simp only [admin_stats, if_neg h]
      rw [hsynth, hslen]
      rcases Nat.eq_zero_or_pos ((evalImagePairs db a).filter (fun p => !p.2.is_real)).length
        with hz | hp
      · rw [if_neg (by omega), if_pos hz]
      · rw [if_pos hp, if_neg (by omega)]

lemma filtered_images_nodup (evs : List Evaluation) (c : Nat) (p : Evaluation → Bool)
    (hnd : (evs.map (fun e => (e.clinician, e.image))).Nodup) :
    ((evs.filter (fun e => e.clinician == c && p e)).map (fun e => e.image)).Nodup := by
  induction evs with
  | nil => simp
  | cons e tl ih =>
    rw [List.map_cons, List.nodup_cons] at hnd
    by_cases hc : (e.clinician == c && p e) = true
    · rw [List.filter_cons, if_pos hc, List.map_cons, List.nodup_cons]
      refine ⟨?_, ih hnd.2⟩
      intro hmem
      rcases List.mem_map.mp hmem with ⟨e', he', himg⟩
      rcases List.mem_filter.mp he' with ⟨he'tl, hpe'⟩
      have hcc : e.clinician = c := beq_iff_eq.mp (Bool.and_eq_true_iff.mp hc).1
      have hcc' : e'.clinician = c := beq_iff_eq.mp (Bool.and_eq_true_iff.mp hpe').1
      refine hnd.1 ?_
      have : (e.clinician, e.image) = (e'.clinician, e'.image) := by
        rw [hcc, hcc', himg]
      rw [this]
      exact List.mem_map.mpr ⟨e', he'tl, rfl⟩
    · rw [List.filter_cons, if_neg hc]
      exact ih hnd.2

lemma evaluatedInScope_le (db : DB) (a : Assignment)
    (hnd : (db.evaluations.map (fun e => (e.clinician, e.image))).Nodup) :
    evaluatedInScope db a ≤ (effectiveScope db a).length := by
  rw [evaluatedInScope]
  have hlen : (db.evaluations.filter
        (fun e => e.clinician == a.clinician && (effectiveScope db a).contains e.image)).length
      = ((db.evaluations.filter
          (fun e => e.clinician == a.clinician && (effectiveScope db a).contains e.image)).map
          (fun e => e.image)).length := (List.length_map _ _).symm
  rw [hlen]
  have hnodup := filtered_images_nodup db.evaluations a.clinician
    (fun e => (effectiveScope db a).contains e.image) hnd
  have hsubset : ((db.evaluations.filter
        (fun e => e.clinician == a.clinician && (effectiveScope db a).contains e.image)).map
        (fun e => e.image)) ⊆ effectiveScope db a := by
    intro x hx
    rcases List.mem_map.mp hx with ⟨e, he, himg⟩
    rcases List.mem_filter.mp he with ⟨_, hpe⟩
    have := (Bool.and_eq_true_iff.mp hpe).2
    rw [← himg]
    exact List.elem_iff.mp this
  exact (List.subperm_of_subset hnodup hsubset).length_le

/-- Claim C8: for every assignment, under the uniqueness constraint of
`Evaluation.Meta` (at most one evaluation per (clinician, image) pair,
stated as no-duplicate pairs in the evaluation table), the computed
progress lies in `[0, 100]`, and progress `= 100` forces the evaluated
count over the effective scope to equal the scope's total image count. -/
theorem C8_progress_bounds (db : DB) (a : Assignment)
    (hnd : (db.evaluations.map (fun e => (e.clinician, e.image))).Nodup) :
    0 ≤ get_progress db a ∧ get_progress db a ≤ 100
    ∧ (get_progress db a = 100 → evaluatedInScope db a = (effectiveScope db a).length) := by
  have hle := evaluatedInScope_le db a hnd
  rw [progress_eq_scope]
  by_cases h : (effectiveScope db a).length = 0
  · rw [if_pos h]
    norm_num
  · rw [if_neg h]
    have hT : (0 : ℚ) < ((effectiveScope db a).length : ℚ) := by
      exact_mod_cast Nat.pos_of_ne_zero h
    have hE : (0 : ℚ) ≤ ((evaluatedInScope db a) : ℚ) := by positivity
    have hdiv : ((evaluatedInScope db a) : ℚ) / ((effectiveScope db a).length : ℚ) ≤ 1 :=
      (div_le_one hT).mpr (by exact_mod_cast hle)
    refine ⟨by positivity, ?_, ?_⟩
    · calc ((evaluatedInScope db a) : ℚ) / ((effectiveScope db a).length : ℚ) * 100
          ≤ 1 * 100 := by
            exact mul_le_mul_of_nonneg_right hdiv (by norm_num)
        _ = 100 := by norm_num
    · intro h100
      field_simp at h100
      have hnat : evaluatedInScope db a * 100 = 100 * (effectiveScope db a).length := by
        exact_mod_cast h100
      omega

/-- Witness for claim C8 at a concrete store satisfying the uniqueness
hypothesis. -/
theorem C8_progress_bounds_witness :
    ((dbSubsetDone.evaluations.map (fun e => (e.clinician, e.image))).Nodup)
    ∧ (0 ≤ get_progress dbSubsetDone ⟨1, 1, 1, false, [1]⟩
      ∧ get_progress dbSubsetDone ⟨1, 1, 1, false, [1]⟩ ≤ 100
      ∧ (get_progress dbSubsetDone ⟨1, 1, 1, false, [1]⟩ = 100 →
          evaluatedInScope dbSubsetDone ⟨1, 1, 1, false, [1]⟩
            = (effectiveScope dbSubsetDone ⟨1, 1, 1, false, [1]⟩).length)) :=
  ⟨by decide, C8_progress_bounds dbSubsetDone ⟨1, 1, 1, false, [1]⟩ (by decide)⟩
lemma flatten_slices {α : Type} :
    ∀ (num : Nat) (l : List α) (f : Nat → Nat), f 0 = 0 → (∀ i, f i ≤ f (i + 1)) →
      f num = l.length →
      ((List.range num).map (fun i => (l.drop (f i)).take (f (i + 1) - f i))).flatten = l := by
  intro num
  induction num with
  | zero =>
    intro l f h0 hstep hend
    simp only [List.range_zero, List.map_nil, List.flatten_nil]
    exact (List.eq_nil_of_length_eq_zero (h0 ▸ hend.symm)).symm
  | succ n ih =>
    intro l f h0 hstep hend
    have hmono : Monotone f := monotone_nat_of_le_succ hstep
    have hf1 : f 1 ≤ l.length := hend ▸ hmono (by omega)
    rw [List.range_succ_eq_map, List.map_cons, List.flatten_cons, List.map_map]
    have hcomp : ((fun i => (l.drop (f i)).take (f (i + 1) - f i)) ∘ Nat.succ)
        = (fun i => ((l.drop (f 1)).drop ((f (i + 1) - f 1)))
            |>.take ((f (i + 2) - f 1) - (f (i + 1) - f 1))) := by
      funext i
      have h1 : f 1 ≤ f (i + 1) := hmono (by omega)
      have h2 : f (i + 1) ≤ f (i + 2) := hstep (i + 1)
      have hd : f 1 + (f (i + 1) - f 1) = f (i + 1) := by omega
      have ht : (f (i + 2) - f 1) - (f (i + 1) - f 1) = f (i + 2) - f (i + 1) := by omega
      have h12 : i + 1 + 1 = i + 2 := by omega
      simp only [Function.comp_apply, Nat.succ_eq_add_one, List.drop_drop, hd, ht, h12]
    rw [hcomp]
    rw [ih (l.drop (f 1)) (fun i => f (i + 1) - f 1) (by simp)
      (fun i => Nat.sub_le_sub_right (hstep (i + 1)) _)
      (by show f (n + 1) - f 1 = (l.drop (f 1)).length
          rw [List.length_drop]
          omega)]
    simp only [h0, List.drop_zero, Nat.sub_zero]
    exact List.take_append_drop (f 1) l

lemma assign_chunks_eq_slices {α : Type} (images : List α) (num : Nat) :
    assign_chunks images num
      = (List.range num).map (fun i =>
          (images.drop (i * (images.length / num) + min i (images.length % num))).take
            ((i + 1) * (images.length / num) + min (i + 1) (images.length % num)
              - (i * (images.length / num) + min i (images.length % num)))) := rfl

lemma assign_chunks_flatten {α : Type} (images : List α) (num : Nat) (hk : 1 ≤ num) :
    (assign_chunks images num).flatten = images := by
  rw [assign_chunks_eq_slices]
  refine flatten_slices num images (fun i => i * (images.length / num)
    + min i (images.length % num)) (by simp) ?_ ?_
  · intro i
    refine Nat.add_le_add (Nat.mul_le_mul_right _ (Nat.le_succ i)) ?_
    generalize images.length % num = m
    omega
  · show num * (images.length / num) + min num (images.length % num) = images.length
    have hm : images.length % num < num := Nat.mod_lt _ hk
    have hdm := Nat.div_add_mod images.length num
    generalize hq : images.length / num = q at *
    generalize hmm : images.length % num = m at *
    omega
lemma assign_chunks_length {α : Type} (images : List α) (num : Nat) :
    (assign_chunks images num).length = num := by
  simp [assign_chunks]

lemma assign_chunks_getD_length {α : Type} (images : List α) (num i : Nat)
    (hk : 1 ≤ num) (hi : i < num) :
    ((assign_chunks images num).getD i []).length
      = images.length / num + (if i < images.length % num then 1 else 0) := by
  have hget : (assign_chunks images num).getD i []
      = (images.drop (i * (images.length / num) + min i (images.length % num))).take
          ((i + 1) * (images.length / num) + min (i + 1) (images.length % num)
            - (i * (images.length / num) + min i (images.length % num))) := by
    rw [assign_chunks_eq_slices, List.getD_eq_getElem?_getD, List.getElem?_map,
      List.getElem?_range hi]
    rfl
  have hmono : ∀ j, j ≤ num →
      j * (images.length / num) + min j (images.length % num) ≤ images.length := by
    intro j hj
    have hm : images.length % num < num := Nat.mod_lt _ hk
    have hdm := Nat.div_add_mod images.length num
    have hmul : j * (images.length / num) ≤ num * (images.length / num) :=
      Nat.mul_le_mul_right _ hj
    generalize hq : images.length / num = q at *
    generalize hmm : images.length % num = m at *
    generalize hjq : j * q = jq at *
    generalize hnq : num * q = nq at *
    omega
  have h1 : (i + 1) * (images.length / num) + min (i + 1) (images.length % num)
      ≤ images.length := hmono (i + 1) hi
  have h0 : i * (images.length / num) + min i (images.length % num) ≤ images.length :=
    hmono i (Nat.le_of_lt hi)
  have hexp : (i + 1) * (images.length / num) = i * (images.length / num)
      + images.length / num := by ring
  have htle : (i + 1) * (images.length / num) + min (i + 1) (images.length % num)
        - (i * (images.length / num) + min i (images.length % num))
      ≤ (images.drop (i * (images.length / num)
          + min i (images.length % num))).length := by
    rw [List.length_drop]
    rw [hexp] at h1
    generalize hq : images.length / num = q at *
    generalize hmm : images.length % num = m at *
    generalize hiq : i * q = iq at *
    omega
  rw [hget, List.length_take_of_le htle]
  rw [hexp]
  by_cases him : i < images.length % num
  · have e1 : min i (images.length % num) = i := min_eq_left (by omega)
    have e2 : min (i + 1) (images.length % num) = i + 1 := min_eq_left (by omega)
    rw [e1, e2, if_pos him]
    generalize hiq : i * (images.length / num) = iq
    generalize hq2 : images.length / num = q
    omega
  · have e1 : min i (images.length % num) = images.length % num := min_eq_right (by omega)
    have e2 : min (i + 1) (images.length % num) = images.length % num :=
      min_eq_right (by omega)
    rw [e1, e2, if_neg him]
    generalize hiq : i * (images.length / num) = iq
    generalize hq2 : images.length / num = q
    omega

lemma assign_chunks_length_mem {α : Type} (images : List α) (num : Nat) (hk : 1 ≤ num)
    (c : List α) (hc : c ∈ assign_chunks images num) :
    c.length = images.length / num ∨ c.length = images.length / num + 1 := by
  rcases List.mem_iff_getElem.mp hc with ⟨i, hilt, hgi⟩
  have hlen : (assign_chunks images num).length = num := assign_chunks_length images num
  have hi : i < num := hlen ▸ hilt
  have hgd : (assign_chunks images num).getD i [] = c := by
    rw [List.getD_eq_getElem?_getD, List.getElem?_eq_getElem hilt, hgi]
    rfl
  have := assign_chunks_getD_length images num i hk hi
  rw [hgd] at this
  by_cases hm : i < images.length % num
  · right
    rw [this, if_pos hm]
  · left
    rw [this, if_neg hm]
    omega

/-- Claim C2: for every image list of size `n` and `k ≥ 1` clinicians the
splitter's chunks have lengths summing to `n`, chunk `i` holds
`⌈n/k⌉ = n/k + 1` images for `i < n mod k` and `⌊n/k⌋` otherwise (so any
two chunk sizes differ by at most 1), every image lands in exactly one
chunk, and splitting 10 images across 3 clinicians yields sizes
`[4, 3, 3]`. -/
theorem C2_splitter_partition (images : List Nat) (k : Nat) (hk : 1 ≤ k) :
    (((assign_chunks images k).map List.length).sum = images.length)
    ∧ (∀ i, i < k →
        ((assign_chunks images k).getD i []).length
          = images.length / k + (if i < images.length % k then 1 else 0))
    ∧ (∀ c1 ∈ assign_chunks images k, ∀ c2 ∈ assign_chunks images k,
        c1.length ≤ c2.length + 1)
    ∧ (images.Nodup → ∀ x ∈ images,
        ((assign_chunks images k).map (fun c => c.count x)).sum = 1)
    ∧ ((assign_chunks (List.range 10) 3).map List.length = [4, 3, 3]) := by
  refine ⟨?_, ?_, ?_, ?_, by decide⟩
  · rw [← List.length_flatten, assign_chunks_flatten images k hk]
  · intro i hi
    exact assign_chunks_getD_length images k i hk hi
  · intro c1 hc1 c2 hc2
    rcases assign_chunks_length_mem images k hk c1 hc1 with h1 | h1 <;>
      rcases assign_chunks_length_mem images k hk c2 hc2 with h2 | h2 <;>
        omega
  · intro hnd x hx
    have hcount : images.count x = 1 := List.count_eq_one_of_mem hnd hx
    have : ((assign_chunks images k).flatten).count x = 1 := by
      rw [assign_chunks_flatten images k hk]
      exact hcount
    rw [List.count_flatten] at this
    rw [← this]

/-- Witness for claim C2 at 10 images and 3 clinicians. -/
theorem C2_splitter_partition_witness :
    (1 ≤ 3)
    ∧ ((((assign_chunks (List.range 10) 3).map List.length).sum = (List.range 10).length)
      ∧ (∀ i, i < 3 →
          ((assign_chunks (List.range 10) 3).getD i []).length
            = (List.range 10).length / 3
              + (if i < (List.range 10).length % 3 then 1 else 0))
      ∧ (∀ c1 ∈ assign_chunks (List.range 10) 3, ∀ c2 ∈ assign_chunks (List.range 10) 3,
          c1.length ≤ c2.length + 1)
      ∧ ((List.range 10).Nodup → ∀ x ∈ List.range 10,
          ((assign_chunks (List.range 10) 3).map (fun c => c.count x)).sum = 1)
      ∧ ((assign_chunks (List.range 10) 3).map List.length = [4, 3, 3])) :=
  ⟨by decide, C2_splitter_partition (List.range 10) 3 (by decide)⟩
lemma upsert_preserves (d : DB) (c setId : Nat) (chunk : List Nat) (b : Assignment)
    (hb : b ∈ d.assignments) (hne : b.clinician ≠ c) :
    b ∈ (upsertAssignment d c setId chunk).assignments := by
  rw [upsertAssignment]
  by_cases h : d.assignments.any (fun a => a.clinician == c && a.image_set == setId)
  · simp only [h, if_true]
    have : (if b.clinician == c && b.image_set == setId then
        { b with assigned_images := chunk, is_completed := false } else b) = b := by
      have : (b.clinician == c) = false := beq_eq_false_iff_ne.mpr hne
      simp [this]
    rw [← this]
    exact List.mem_map.mpr ⟨b, hb, rfl⟩
  · simp only [h, Bool.false_eq_true, if_false]
    exact List.mem_append.mpr (Or.inl hb)

lemma upsert_hits (d : DB) (c setId : Nat) (chunk : List Nat) (a0 : Assignment)
    (ha : a0 ∈ d.assignments) (hc : a0.clinician = c) (hs : a0.image_set = setId) :
    (⟨a0.id, c, setId, false, chunk⟩ : Assignment)
      ∈ (upsertAssignment d c setId chunk).assignments := by
  rw [upsertAssignment]
  have hany : d.assignments.any (fun a => a.clinician == c && a.image_set == setId) = true :=
    List.any_eq_true.mpr ⟨a0, ha,
      Bool.and_eq_true_iff.mpr ⟨beq_iff_eq.mpr hc, beq_iff_eq.mpr hs⟩⟩
  simp only [hany, if_true]
  refine List.mem_map.mpr ⟨a0, ha, ?_⟩
  have hcond : (a0.clinician == c && a0.image_set == setId) = true :=
    Bool.and_eq_true_iff.mpr ⟨beq_iff_eq.mpr hc, beq_iff_eq.mpr hs⟩
  rw [if_pos hcond]
  cases a0
  simp_all

lemma foldl_upsert_preserves (setId : Nat) (chunks : List (List Nat)) :
    ∀ (pairs : List (Nat × Nat)) (d : DB) (b : Assignment),
      b ∈ d.assignments → (∀ p ∈ pairs, p.2 ≠ b.clinician) →
      b ∈ (pairs.foldl (fun d p =>
            if p.1 < chunks.length then upsertAssignment d p.2 setId (chunks.getD p.1 [])
            else d) d).assignments := by
  intro pairs
  induction pairs with
  | nil => intro d b hb _; exact hb
  | cons hd tl ih =>
    intro d b hb hno
    rw [List.foldl_cons]
    refine ih _ b ?_ (fun p hp => hno p (List.mem_cons_of_mem hd hp))
    by_cases h : hd.1 < chunks.length
    · rw [if_pos h]
      exact upsert_preserves _ _ _ _ b hb
        (fun he => hno hd (List.mem_cons_self hd tl) he.symm)
    · rw [if_neg h]
      exact hb

lemma foldl_upsert_main (setId : Nat) (chunks : List (List Nat)) :
    ∀ (pairs : List (Nat × Nat)) (d : DB) (i0 c0 : Nat) (a0 : Assignment),
      pairs.Pairwise (fun p q => p.2 ≠ q.2) →
      (i0, c0) ∈ pairs → i0 < chunks.length →
      a0 ∈ d.assignments → a0.clinician = c0 → a0.image_set = setId →
      (⟨a0.id, c0, setId, false, chunks.getD i0 []⟩ : Assignment)
        ∈ (pairs.foldl (fun d p =>
              if p.1 < chunks.length then upsertAssignment d p.2 setId (chunks.getD p.1 [])
              else d) d).assignments := by
  intro pairs
  induction pairs with
  | nil => intro d i0 c0 a0 _ hmem; exact absurd hmem (List.not_mem_nil _)
  | cons hd tl ih =>
    intro d i0 c0 a0 hpw hmem hlt ha hc hs
    rw [List.foldl_cons]
    rcases List.mem_cons.mp hmem with heq | htl
    · rw [← heq, if_pos hlt]
      refine foldl_upsert_preserves setId chunks tl _ _ ?_ ?_
      · exact upsert_hits d c0 setId (chunks.getD i0 []) a0 ha hc hs
      · intro p hp
        have := (List.pairwise_cons.mp hpw).1 p hp
        rw [← heq] at this
        exact fun he => this he.symm
    · have hne : hd.2 ≠ c0 := by
        have := (List.pairwise_cons.mp hpw).1 (i0, c0) htl
        exact this
      refine ih _ i0 c0 a0 (List.pairwise_cons.mp hpw).2 htl hlt ?_ hc hs
      by_cases h : hd.1 < chunks.length
      · rw [if_pos h]
        exact upsert_preserves _ _ _ _ a0 ha (hc ▸ hne.symm)
      · rw [if_neg h]
        exact ha

/-- Claim C9: for a (clinician, image set) pair that already has an
assignment, running the splitter on that image set (clinician at position
`i0` of a duplicate-free selection, non-empty shuffled image list)
overwrites that assignment's `assigned_images` with chunk `i0` and resets
its `is_completed` flag to `false`, keeping its primary key. -/
theorem C9_split_overwrites_existing (db : DB) (setId : Nat) (shuffled : List Nat)
    (clinicians : List Nat) (i0 c0 : Nat) (a0 : Assignment)
    (hnd : clinicians.Nodup) (hmem : (i0, c0) ∈ clinicians.enum)
    (hsh : shuffled ≠ []) (ha : a0 ∈ db.assignments)
    (hc : a0.clinician = c0) (hs : a0.image_set = setId) :
    (⟨a0.id, c0, setId, false,
        (assign_chunks shuffled clinicians.length).getD i0 []⟩ : Assignment)
      ∈ (assign_split_action db setId shuffled clinicians).assignments := by
  have hi0 : i0 < clinicians.length := by
    have := List.mk_mem_enum_iff_getElem?.mp hmem
    exact (List.getElem?_eq_some.mp this).1
  have hcne : clinicians ≠ [] := by
    intro h
    rw [h] at hi0
    simp at hi0
  rw [assign_split_action]
  rw [if_neg (by simpa using hcne), if_neg (by simpa using hsh)]
  have hpw : clinicians.enum.Pairwise (fun p q => p.2 ≠ q.2) := by
    have hmap : clinicians.enum.map Prod.snd = clinicians := List.enum_map_snd clinicians
    have : (clinicians.enum.map Prod.snd).Pairwise (fun a b => a ≠ b) := by
      rw [hmap]
      exact hnd
    exact (List.pairwise_map.mp this)
  exact foldl_upsert_main setId _ clinicians.enum db i0 c0 a0 hpw hmem
    (by rw [assign_chunks_length]; exact hi0) ha hc hs

/-- Witness for claim C9: re-splitting two images over clinicians
`[1, 2]` overwrites clinician 1's completed assignment with chunk 0 and
clears the completion flag. -/
theorem C9_split_overwrites_existing_witness :
    (([1, 2] : List Nat).Nodup ∧ ((0 : Nat), (1 : Nat)) ∈ ([1, 2] : List Nat).enum
      ∧ ([10, 20] : List Nat) ≠ []
      ∧ (⟨1, 1, 1, true, [5]⟩ : Assignment) ∈ dbReassign.assignments
      ∧ (⟨1, 1, 1, true, [5]⟩ : Assignment).clinician = 1
      ∧ (⟨1, 1, 1, true, [5]⟩ : Assignment).image_set = 1)
    ∧ (⟨1, 1, 1, false, (assign_chunks [10, 20] 2).getD 0 []⟩ : Assignment)
        ∈ (assign_split_action dbReassign 1 [10, 20] [1, 2]).assignments :=
  ⟨⟨by decide, by decide, by decide, by decide, by decide, by decide⟩,
   C9_split_overwrites_existing dbReassign 1 [10, 20] [1, 2] 0 1 ⟨1, 1, 1, true, [5]⟩
     (by decide) (by decide) (by decide) (by decide) rfl rfl⟩
/-- Claim C10: the POST branch of `register` marks the invitation used
exactly when the account is created — registration succeeds iff the form
is valid and an unused invitation with the token exists, the user table
gains the new account exactly on success, and the invitation table is
updated (token marked used) exactly on success; in particular a valid
unused token with invalid form data leaves the invitation unused and
creates no user, so the token can be retried. -/
theorem C10_invitation_used_iff_account_created (s : RegState) (t : Nat) (fv : Bool)
    (u : Nat) :
    ((register s (some (some t)) fv u).1 = RegResult.success
      ↔ fv = true ∧ ∃ inv ∈ s.invitations, inv.token = t ∧ inv.is_used = false)
    ∧ (register s (some (some t)) fv u).2.users
        = (if (register s (some (some t)) fv u).1 = RegResult.success
           then s.users ++ [u] else s.users)
    ∧ (register s (some (some t)) fv u).2.invitations
        = (if (register s (some (some t)) fv u).1 = RegResult.success
           then s.invitations.map (fun inv =>
              if inv.token == t then { inv with is_used := true } else inv)
           else s.invitations) := by
  by_cases hinv : (s.invitations.any (fun inv => inv.token == t && !inv.is_used)) = true
  · have hex : ∃ inv ∈ s.invitations, inv.token = t ∧ inv.is_used = false := by
      rcases List.any_eq_true.mp hinv with ⟨inv, hmem, hp⟩
      rcases Bool.and_eq_true_iff.mp hp with ⟨h1, h2⟩
      exact ⟨inv, hmem, beq_iff_eq.mp h1, by simpa using h2⟩
    cases fv with
    | true =>
      have hval : register s (some (some t)) true u
          = (.success,
             ⟨s.invitations.map (fun inv =>
                if inv.token == t then { inv with is_used := true } else inv),
              s.users ++ [u]⟩) := by
        simp [register, hinv]
      rw [hval]
      exact ⟨iff_of_true rfl ⟨rfl, hex⟩, by simp, by simp⟩
    | false =>
      have hval : register s (some (some t)) false u = (.formInvalid, s) := by
        simp [register, hinv]
      rw [hval]
      refine ⟨iff_of_false (by simp) (fun hc => by simpa using hc.1), by simp, by simp⟩
  · have hnone : ¬∃ inv ∈ s.invitations, inv.token = t ∧ inv.is_used = false := by
      rintro ⟨inv, hmem, h1, h2⟩
      exact hinv (List.any_eq_true.mpr ⟨inv, hmem,
        Bool.and_eq_true_iff.mpr ⟨beq_iff_eq.mpr h1, by rw [h2]; rfl⟩⟩)
    have hval : register s (some (some t)) fv u = (.invalidToken, s) := by
      simp [register, hinv]
    rw [hval]
    exact ⟨iff_of_false (by simp) (fun hc => hnone hc.2), by simp, by simp⟩

end MedSynEval
